import Mathlib

set_option linter.unusedSectionVars false

/-!
Verification of the `sjtu::linked_hashmap` container
(src/linked_hashmap.hpp): an insertion-ordered hash map combining a
bucket index (array of singly-linked chains) with a doubly-linked order
list bounded by head/tail sentinels.

Shallow embedding conventions:

* The C++ state members `table` (array of `Bucket*` chains),
  `table_size`, `element_count`, and the order list between the `head`
  and `tail` sentinels become the fields of `LHM.LinkedHashmap`.
  The bucket array is embedded as a function `Nat -> List (K x V)`;
  `table i` is the chain hanging off slot `i` (entries listed from the
  chain head, exactly the traversal order of `find_node` /
  `remove_from_table`), and slots `i >= table_size` are never touched,
  mirroring the array of size `table_size`.  The order list becomes the
  Lean list of the live entries from `head->next` to `tail->prev`
  (front = oldest).  A chain cell (`Bucket`) holds a pointer to an
  order-list node; since keys are unique, the embedded chain stores the
  node's `(key, value)` data directly.
* `Hash` is an arbitrary function `hash : K -> Nat`, `Equal` is
  decidable equality on `K`; `get_bucket_index` is `hash key %
  table_size` as in the source.
* The load-factor test `element_count >= table_size * LOAD_FACTOR` with
  `LOAD_FACTOR = 0.75` is embedded as `4 * element_count >= 3 *
  table_size`: for the table sizes the container produces
  (`16 * 2 ^ j`), `table_size * 0.75` is computed exactly by the C++
  `double` arithmetic, so the integer comparison is equivalent.
* Exceptions (`index_out_of_bound`, `invalid_iterator`) become the
  `HMError` type; operations that may throw return `Except` values, or
  pair the error with the (unchanged) state where the claim is about
  the state being left intact.
* An iterator is a `(node, map)` pair in the source.  Its node is
  embedded as `Option Nat`: `none` is the null cursor of a
  default-constructed iterator, `some 0` the head sentinel, `some i`
  (`1 <= i <= n`) the i-th live node, and `some (n + 1)` the tail
  sentinel, for a container with `n` elements.  `node->next` is `i + 1`
  and `node->prev` is `i - 1` (with `head->prev = nullptr` becoming
  `none`).  The `map` member is embedded, where it matters (`erase`),
  as a boolean `sameMap` recording whether `pos.map == this`.
`iterator` and `const_iterator` have textually identical advance /
retreat logic, so one embedding covers both.
-/

namespace LHM

/-- The exception types of src/exceptions.hpp used by the container:
`index_out_of_bound` is thrown by checked access on a missing key,
`invalid_iterator` by cursor moves past the sentinels and by `erase`
on a bad position. -/
inductive HMError where
  | index_out_of_bound : HMError
  | invalid_iterator : HMError
deriving DecidableEq, Repr

/-- The container state: bucket table (as a function from slot index to
the chain of entries in that slot), `table_size`, `element_count`, and
the order list of live entries in insertion order. -/
structure LinkedHashmap (K V : Type) where
  table : Nat → List (K × V)
  table_size : Nat
  element_count : Nat
  list : List (K × V)

variable {K V : Type} [DecidableEq K]

/-- `get_bucket_index`: `hasher(key) % table_size`. -/
def get_bucket_index (hash : K → Nat) (m : LinkedHashmap K V) (key : K) : Nat :=
  hash key % m.table_size

/-- `init_table(size)` starting from an empty container: a table of
`size` empty chains, no elements, empty order list. -/
def emptyOfSize (s : Nat) : LinkedHashmap K V :=
  { table := fun _ => [], table_size := s, element_count := 0, list := [] }

/-- The default constructor: sentinels linked to each other (empty order
list) and `init_table(INITIAL_CAPACITY)` with `INITIAL_CAPACITY = 16`. -/
def emptyMap : LinkedHashmap K V := emptyOfSize 16

/-- `find_node(key)`: scan the chain in slot `get_bucket_index(key)` for
the first entry whose key compares equal to `key`. -/
def find_node (hash : K → Nat) (m : LinkedHashmap K V) (key : K) : Option (K × V) :=
  (m.table (get_bucket_index hash m key)).find? (fun e => decide (e.1 = key))

/-- `rehash()`: double the size, rebuild the chains by traversing the
order list from `head->next` and pushing each node onto the front of its
new slot (`new_bucket->next = new_table[index]; new_table[index] =
new_bucket`); the order list itself is not touched. -/
def rehash (hash : K → Nat) (m : LinkedHashmap K V) : LinkedHashmap K V :=
  { m with
    table :=
      m.list.foldl
        (fun t e => fun i => if i = hash e.1 % (m.table_size * 2) then e :: t i else t i)
        (fun _ => []),
    table_size := m.table_size * 2 }

/-- The growth step inside `insert`: rehash exactly when
`element_count >= table_size * LOAD_FACTOR` (embedded as
`4 * element_count >= 3 * table_size`), else leave the state alone. -/
def preGrow (hash : K → Nat) (m : LinkedHashmap K V) : LinkedHashmap K V :=
  if 4 * m.element_count ≥ 3 * m.table_size then rehash hash m else m

/-- The missing-key tail of `insert` after the growth decision: create
the node, `insert_to_list` (splice before `tail`, i.e. append to the
order list), `insert_to_table` (push a cell onto the front of the key's
chain, at the bucket index computed with the current `table_size`), and
increment `element_count`. -/
def insertNew (hash : K → Nat) (m1 : LinkedHashmap K V) (value : K × V) :
    LinkedHashmap K V :=
  { table := fun i =>
      if i = hash value.1 % m1.table_size then value :: m1.table i else m1.table i,
    table_size := m1.table_size,
    element_count := m1.element_count + 1,
    list := m1.list ++ [value] }

/-- `insert(value)`: if the key is already present return the existing
node and `false` (nothing is modified); otherwise grow if needed
(`preGrow`), then add the new node (`insertNew`).  The returned pair
carries the data of the node the returned iterator points to, and the
success flag. -/
def insert (hash : K → Nat) (m : LinkedHashmap K V) (value : K × V) :
    ((K × V) × Bool) × LinkedHashmap K V :=
  match find_node hash m value.1 with
  | some existing => ((existing, false), m)
  | none => ((value, true), insertNew hash (preGrow hash m) value)

/-- A sequence of `insert` calls, in order. -/
def insertList (hash : K → Nat) : LinkedHashmap K V → List (K × V) → LinkedHashmap K V
  | m, [] => m
  | m, e :: l => insertList hash (insert hash m e).2 l

/-- `remove_from_table(key)`: delete the first chain cell in slot
`get_bucket_index(key)` whose key compares equal to `key` (no-op if no
such cell exists). -/
def remove_from_table (hash : K → Nat) (m : LinkedHashmap K V) (key : K) :
    LinkedHashmap K V :=
  let idx := get_bucket_index hash m key
  { m with table := fun i =>
      if i = idx then (m.table i).eraseP (fun e => decide (e.1 = key)) else m.table i }

/-- An iterator argument to `erase`: the cursor position (see the header
comment for the `Option Nat` encoding) together with whether its `map`
member equals the container being erased from (`pos.map == this`). -/
structure IterArg where
  pos : Option Nat
  sameMap : Bool

/-- `erase(pos)`: throw `invalid_iterator` when `pos.map != this`,
`pos.node == tail`, `pos.node == head`, or `pos.node == nullptr`;
otherwise remove the node's chain cell, unlink it from the order list,
and decrement `element_count`.  The result pairs the thrown error (if
any) with the container state afterwards; on error the state is the
input state, since the throw happens before any mutation.  Past the
guard the cursor is `some i` with `1 <= i`, so `p.pos.getD 0` is the
node's position and the node's data is `m.list[i - 1]`; the `none` row
of the inner match is unreachable for a genuine iterator, whose node
lies inside this container's order list. -/
def eraseIt (hash : K → Nat) (m : LinkedHashmap K V) (p : IterArg) :
    Option HMError × LinkedHashmap K V :=
  if p.sameMap = false ∨ p.pos = some (m.list.length + 1) ∨ p.pos = some 0 ∨ p.pos = none then
    (some HMError.invalid_iterator, m)
  else
    match m.list[(p.pos.getD 0) - 1]? with
    | some e =>
      (none,
        { remove_from_table hash m e.1 with
          list := (remove_from_table hash m e.1).list.eraseIdx ((p.pos.getD 0) - 1),
          element_count := (remove_from_table hash m e.1).element_count - 1 })
    | none => (some HMError.invalid_iterator, m)

/-- `operator++` of `iterator` / `const_iterator` on a container with
`n` elements: throw `invalid_iterator` when the cursor is null or at the
tail sentinel (`node == map->tail`), else move to `node->next`. -/
def advanceIter (n : Nat) (p : Option Nat) : Except HMError (Option Nat) :=
  match p with
  | none => Except.error HMError.invalid_iterator
  | some i =>
    if i = n + 1 then Except.error HMError.invalid_iterator
    else Except.ok (some (i + 1))

/-- `operator--` of `iterator` / `const_iterator`: throw
`invalid_iterator` when the cursor is null or `node->prev == map->head`
(position 1), else move to `node->prev` (from the head sentinel itself,
`head->prev` is `nullptr`). -/
def retreatIter (p : Option Nat) : Except HMError (Option Nat) :=
  match p with
  | none => Except.error HMError.invalid_iterator
  | some i =>
    if i = 1 then Except.error HMError.invalid_iterator
    else Except.ok (if i = 0 then none else some (i - 1))

/-- `at(key)` (both overloads): `find_node`, throw `index_out_of_bound`
when absent, else the mapped value. -/
def atGet (hash : K → Nat) (m : LinkedHashmap K V) (key : K) : Except HMError V :=
  match find_node hash m key with
  | some e => Except.ok e.2
  | none => Except.error HMError.index_out_of_bound

/-- `count(key)`: 1 when `find_node` succeeds, else 0. -/
def countKey (hash : K → Nat) (m : LinkedHashmap K V) (key : K) : Nat :=
  match find_node hash m key with
  | some _ => 1
  | none => 0

/-- `find(key)` (both overloads): an iterator to the node when present,
the past-the-end iterator (`none`) otherwise. -/
def findIt (hash : K → Nat) (m : LinkedHashmap K V) (key : K) : Option (K × V) :=
  match find_node hash m key with
  | some node => some node
  | none => none

/-- Mutable `operator[](key)`: when absent, `insert` a default-valued
entry (`value_type new_pair(key, T())`) and return its value; when
present, return the existing node's value.  Result pairs the returned
value with the container state afterwards. -/
def indexGet [Inhabited V] (hash : K → Nat) (m : LinkedHashmap K V) (key : K) :
    V × LinkedHashmap K V :=
  match find_node hash m key with
  | some node => (node.2, m)
  | none =>
    ((insert hash m (key, (default : V))).1.1.2,
     (insert hash m (key, (default : V))).2)

/-- Read-only `operator[](key)`: throw `index_out_of_bound` when absent
(never inserts — it returns a value only, the state is untouched). -/
def indexGetConst (hash : K → Nat) (m : LinkedHashmap K V) (key : K) : Except HMError V :=
  match find_node hash m key with
  | some node => Except.ok node.2
  | none => Except.error HMError.index_out_of_bound

/-- The copy constructor: fresh sentinels, `init_table(other.table_size)`,
then `insert(*(current->data))` for every node of `other`'s order list
in order. -/
def copy_from (hash : K → Nat) (other : LinkedHashmap K V) : LinkedHashmap K V :=
  insertList hash (emptyOfSize other.table_size) other.list

/-- Copy assignment: `if (this == &other) return *this;` else clear and
replay `other`'s entries exactly as the copy constructor does.
`sameInstance` embeds the pointer test `this == &other`. -/
def assign (hash : K → Nat) (self other : LinkedHashmap K V) (sameInstance : Bool) :
    LinkedHashmap K V :=
  if sameInstance then self else copy_from hash other

/-- Structural well-formedness tying the bucket index to the order list:
counts agree, keys are unique, every chain cell references a live node
placed in the slot of its key's current bucket index, every live node
has a chain cell, chains never hold two cells for one key, and the
table is nonempty (the C++ code indexes `hash % table_size`). -/
structure WF (hash : K → Nat) (m : LinkedHashmap K V) : Prop where
  count_eq : m.element_count = m.list.length
  nodupKeys : (m.list.map Prod.fst).Nodup
  size_pos : 0 < m.table_size
  sound : ∀ i e, e ∈ m.table i → e ∈ m.list ∧ hash e.1 % m.table_size = i
  complete : ∀ e ∈ m.list, e ∈ m.table (hash e.1 % m.table_size)
  chainNodup : ∀ i, ((m.table i).map Prod.fst).Nodup

/-- The load-factor invariant `element_count <= table_size * 0.75`. -/
def LF (m : LinkedHashmap K V) : Prop :=
  4 * m.element_count ≤ 3 * m.table_size

/-- Table sizes reachable from the default constructor: 16 times a power
of two. -/
def SizeOk (m : LinkedHashmap K V) : Prop :=
  ∃ j : Nat, m.table_size = 16 * 2 ^ j

/-! ### Basic lemmas -/

theorem key_unique {l : List (K × V)} (h : (l.map Prod.fst).Nodup)
    {a b : K × V} (ha : a ∈ l) (hb : b ∈ l) (hk : a.1 = b.1) : a = b :=
  List.inj_on_of_nodup_map h ha hb hk

theorem not_mem_keys {l : List (K × V)} {k : K} :
    k ∉ l.map Prod.fst ↔ ∀ x ∈ l, x.1 ≠ k := by
  simp only [List.mem_map, not_exists]
  constructor
  · intro h x hx hk
    exact h x ⟨hx, hk⟩
  · rintro h x ⟨hx, hk⟩
    exact h x hx hk

theorem find_node_some_iff (hash : K → Nat) {m : LinkedHashmap K V} (hWF : WF hash m)
    {k : K} {e : K × V} :
    find_node hash m k = some e ↔ e ∈ m.list ∧ e.1 = k := by
  constructor
  · intro h
    have hmem := List.mem_of_find?_eq_some h
    have hp := List.find?_some h
    exact ⟨(hWF.sound _ _ hmem).1, of_decide_eq_true hp⟩
  · rintro ⟨hmem, hk⟩
    have hb : e ∈ m.table (hash k % m.table_size) := by
      have := hWF.complete e hmem
      rwa [hk] at this
    unfold find_node get_bucket_index
    cases h : (m.table (hash k % m.table_size)).find? (fun x => decide (x.1 = k)) with
    | none =>
      have := List.find?_eq_none.mp h e hb
      simp [hk] at this
    | some x =>
      have hxmem := List.mem_of_find?_eq_some h
      have hxp0 := List.find?_some h
      have hxp : x.1 = k := of_decide_eq_true hxp0
      have hxl := (hWF.sound _ _ hxmem).1
      have hxe : x = e := key_unique hWF.nodupKeys hxl hmem (by rw [hxp, hk])
      rw [hxe]

theorem find_node_none_iff (hash : K → Nat) {m : LinkedHashmap K V} (hWF : WF hash m)
    {k : K} :
    find_node hash m k = none ↔ ∀ x ∈ m.list, x.1 ≠ k := by
  constructor
  · intro h x hx hk
    have hb : x ∈ m.table (hash k % m.table_size) := by
      have := hWF.complete x hx
      rwa [hk] at this
    have := List.find?_eq_none.mp h x hb
    simp [hk] at this
  · intro h
    cases hf : find_node hash m k with
    | none => rfl
    | some e =>
      have he := (find_node_some_iff hash hWF).mp hf
      exact absurd he.2 (h e he.1)

theorem find_node_congr (hash : K → Nat) {a b : LinkedHashmap K V}
    (hA : WF hash a) (hB : WF hash b) (hl : a.list = b.list) (k : K) :
    find_node hash a k = find_node hash b k := by
  cases h : find_node hash a k with
  | some e =>
    have he := (find_node_some_iff hash hA).mp h
    exact ((find_node_some_iff hash hB).mpr ⟨hl ▸ he.1, he.2⟩).symm
  | none =>
    have he := (find_node_none_iff hash hA).mp h
    exact ((find_node_none_iff hash hB).mpr (fun x hx => he x (hl ▸ hx))).symm

/-! ### Rehash lemmas -/

theorem rehash_list (hash : K → Nat) (m : LinkedHashmap K V) :
    (rehash hash m).list = m.list := rfl

theorem rehash_size (hash : K → Nat) (m : LinkedHashmap K V) :
    (rehash hash m).table_size = m.table_size * 2 := rfl

theorem rehash_count (hash : K → Nat) (m : LinkedHashmap K V) :
    (rehash hash m).element_count = m.element_count := rfl

theorem buildTable_eq (hash : K → Nat) (ns : Nat) (l : List (K × V))
    (t0 : Nat → List (K × V)) (i : Nat) :
    (l.foldl (fun t e => fun j => if j = hash e.1 % ns then e :: t j else t j) t0) i
      = (l.filter (fun e => decide (hash e.1 % ns = i))).reverse ++ t0 i := by
  induction l generalizing t0 with
  | nil => simp
  | cons a l ih =>
    rw [List.foldl_cons, ih, List.filter_cons]
    by_cases h : hash a.1 % ns = i
    · rw [if_pos (decide_eq_true h), List.reverse_cons, List.append_assoc]
      simp only [if_pos h.symm]
      rfl
    · rw [if_neg (show ¬(decide (hash a.1 % ns = i) = true) from
          fun hc => h (of_decide_eq_true hc))]
      simp only [if_neg (fun hh : i = hash a.1 % ns => h hh.symm)]

theorem rehash_table (hash : K → Nat) (m : LinkedHashmap K V) (i : Nat) :
    (rehash hash m).table i
      = (m.list.filter (fun e => decide (hash e.1 % (m.table_size * 2) = i))).reverse := by
  simp only [rehash]
  rw [buildTable_eq]
  simp

theorem WF_rehash (hash : K → Nat) {m : LinkedHashmap K V} (hWF : WF hash m) :
    WF hash (rehash hash m) := by
  refine ⟨hWF.count_eq, hWF.nodupKeys, ?_, ?_, ?_, ?_⟩
  · have := hWF.size_pos
    rw [rehash_size]
    omega
  · intro i e he
    rw [rehash_table] at he
    rw [List.mem_reverse, List.mem_filter] at he
    exact ⟨he.1, by simpa [rehash_size] using he.2⟩
  · intro e he
    rw [rehash_list] at he
    rw [rehash_table, rehash_size, List.mem_reverse, List.mem_filter]
    exact ⟨he, by simp⟩
  · intro i
    rw [rehash_table, List.map_reverse, List.nodup_reverse]
    exact hWF.nodupKeys.sublist ((List.filter_sublist _).map Prod.fst)

/-! ### Insert lemmas -/

theorem preGrow_WF (hash : K → Nat) {m : LinkedHashmap K V} (hWF : WF hash m) :
    WF hash (preGrow hash m) := by
  unfold preGrow
  by_cases hc : 4 * m.element_count ≥ 3 * m.table_size
  · rw [if_pos hc]
    exact WF_rehash hash hWF
  · rw [if_neg hc]
    exact hWF

theorem preGrow_list (hash : K → Nat) (m : LinkedHashmap K V) :
    (preGrow hash m).list = m.list := by
  unfold preGrow
  by_cases hc : 4 * m.element_count ≥ 3 * m.table_size
  · rw [if_pos hc, rehash_list]
  · rw [if_neg hc]

theorem preGrow_count (hash : K → Nat) (m : LinkedHashmap K V) :
    (preGrow hash m).element_count = m.element_count := by
  unfold preGrow
  by_cases hc : 4 * m.element_count ≥ 3 * m.table_size
  · rw [if_pos hc, rehash_count]
  · rw [if_neg hc]

theorem preGrow_size_of_lt (hash : K → Nat) (m : LinkedHashmap K V)
    (hc : ¬ 4 * m.element_count ≥ 3 * m.table_size) :
    (preGrow hash m).table_size = m.table_size := by
  unfold preGrow
  rw [if_neg hc]

theorem preGrow_size_of_ge (hash : K → Nat) (m : LinkedHashmap K V)
    (hc : 4 * m.element_count ≥ 3 * m.table_size) :
    (preGrow hash m).table_size = m.table_size * 2 := by
  unfold preGrow
  rw [if_pos hc, rehash_size]

theorem insertNew_table (hash : K → Nat) (m1 : LinkedHashmap K V) (e : K × V) (i : Nat) :
    (insertNew hash m1 e).table i
      = if i = hash e.1 % m1.table_size then e :: m1.table i else m1.table i := rfl

theorem insertNew_list (hash : K → Nat) (m1 : LinkedHashmap K V) (e : K × V) :
    (insertNew hash m1 e).list = m1.list ++ [e] := rfl

theorem insertNew_count (hash : K → Nat) (m1 : LinkedHashmap K V) (e : K × V) :
    (insertNew hash m1 e).element_count = m1.element_count + 1 := rfl

theorem insertNew_size (hash : K → Nat) (m1 : LinkedHashmap K V) (e : K × V) :
    (insertNew hash m1 e).table_size = m1.table_size := rfl

theorem WF_insertNew (hash : K → Nat) {m1 : LinkedHashmap K V} (hWF : WF hash m1)
    {e : K × V} (hkey : ∀ x ∈ m1.list, x.1 ≠ e.1) :
    WF hash (insertNew hash m1 e) := by
  refine ⟨?_, ?_, hWF.size_pos, ?_, ?_, ?_⟩
  · show m1.element_count + 1 = (m1.list ++ [e]).length
    simp [hWF.count_eq]
  · show ((m1.list ++ [e]).map Prod.fst).Nodup
    rw [List.map_append, List.nodup_append]
    refine ⟨hWF.nodupKeys, by simp, ?_⟩
    intro a ha hb
    obtain ⟨x, hx, hxa⟩ := List.mem_map.mp ha
    have hb1 : a = e.1 := by simpa using hb
    exact hkey x hx (hxa.trans hb1)
  · intro i x hx
    rw [insertNew_table] at hx
    show x ∈ m1.list ++ [e] ∧ hash x.1 % m1.table_size = i
    by_cases hi : i = hash e.1 % m1.table_size
    · rw [if_pos hi] at hx
      rcases List.mem_cons.mp hx with hxe | hxm
      · subst hxe
        exact ⟨List.mem_append_right _ (by simp), hi.symm⟩
      · have hs := hWF.sound i x hxm
        exact ⟨List.mem_append_left _ hs.1, hs.2⟩
    · rw [if_neg hi] at hx
      have hs := hWF.sound i x hx
      exact ⟨List.mem_append_left _ hs.1, hs.2⟩
  · intro x hx
    show x ∈ (insertNew hash m1 e).table (hash x.1 % m1.table_size)
    rw [insertNew_table]
    rcases List.mem_append.mp hx with hxm | hxe
    · have hc := hWF.complete x hxm
      by_cases hi : hash x.1 % m1.table_size = hash e.1 % m1.table_size
      · rw [if_pos hi]
        exact List.mem_cons_of_mem _ hc
      · rw [if_neg hi]
        exact hc
    · have hxe2 : x = e := by simpa using hxe
      subst hxe2
      rw [if_pos rfl]
      exact List.mem_cons_self _ _
  · intro i
    rw [insertNew_table]
    by_cases hi : i = hash e.1 % m1.table_size
    · rw [if_pos hi, List.map_cons, List.nodup_cons]
      refine ⟨?_, hWF.chainNodup i⟩
      intro hmem
      obtain ⟨x, hx, hxk⟩ := List.mem_map.mp hmem
      exact hkey x (hWF.sound i x hx).1 hxk
    · rw [if_neg hi]
      exact hWF.chainNodup i

theorem insert_present (hash : K → Nat) {m : LinkedHashmap K V} {e ex : K × V}
    (h : find_node hash m e.1 = some ex) :
    insert hash m e = ((ex, false), m) := by
  unfold insert
  rw [h]

theorem insert_absent_eq (hash : K → Nat) {m : LinkedHashmap K V} {e : K × V}
    (h : find_node hash m e.1 = none) :
    insert hash m e = ((e, true), insertNew hash (preGrow hash m) e) := by
  unfold insert
  rw [h]

theorem insert_absent_spec (hash : K → Nat) {m : LinkedHashmap K V} (hWF : WF hash m)
    {e : K × V} (h : find_node hash m e.1 = none) :
    (insert hash m e).1 = (e, true) ∧
    (insert hash m e).2.list = m.list ++ [e] ∧
    (insert hash m e).2.element_count = m.element_count + 1 ∧
    WF hash (insert hash m e).2 := by
  rw [insert_absent_eq hash h]
  refine ⟨rfl, ?_, ?_, ?_⟩
  · rw [insertNew_list, preGrow_list]
  · rw [insertNew_count, preGrow_count]
  · apply WF_insertNew hash (preGrow_WF hash hWF)
    intro x hx
    rw [preGrow_list] at hx
    exact (find_node_none_iff hash hWF).mp h x hx

theorem WF_insert (hash : K → Nat) {m : LinkedHashmap K V} (hWF : WF hash m)
    (e : K × V) : WF hash (insert hash m e).2 := by
  cases hf : find_node hash m e.1 with
  | some ex =>
    rw [insert_present hash hf]
    exact hWF
  | none =>
    exact (insert_absent_spec hash hWF hf).2.2.2

theorem WF_emptyOfSize (hash : K → Nat) {s : Nat} (hs : 0 < s) :
    WF hash (emptyOfSize s : LinkedHashmap K V) := by
  refine ⟨rfl, by simp [emptyOfSize], hs, ?_, ?_, ?_⟩
  · intro i e he
    simp [emptyOfSize] at he
  · intro e he
    simp [emptyOfSize] at he
  · intro i
    simp [emptyOfSize]

theorem WF_empty (hash : K → Nat) : WF hash (emptyMap : LinkedHashmap K V) :=
  WF_emptyOfSize hash (by norm_num)

/-! ### insertList lemmas -/

theorem insertList_spec (hash : K → Nat) {m : LinkedHashmap K V} (l : List (K × V))
    (hWF : WF hash m) (hnd : ((m.list ++ l).map Prod.fst).Nodup) :
    (insertList hash m l).list = m.list ++ l ∧ WF hash (insertList hash m l) := by
  induction l generalizing m with
  | nil =>
    exact ⟨by simp [insertList], hWF⟩
  | cons e l ih =>
    have hkey : ∀ x ∈ m.list, x.1 ≠ e.1 := by
      intro x hx hxk
      rw [List.map_append, List.map_cons, List.nodup_append] at hnd
      exact hnd.2.2 (List.mem_map_of_mem Prod.fst hx)
        (by rw [hxk]; exact List.mem_cons_self _ _)
    have hf : find_node hash m e.1 = none := (find_node_none_iff hash hWF).mpr hkey
    have hs := insert_absent_spec hash hWF hf
    have hnd2 : (((insert hash m e).2.list ++ l).map Prod.fst).Nodup := by
      rw [hs.2.1, List.append_assoc]
      simpa using hnd
    have ih2 := ih hs.2.2.2 hnd2
    refine ⟨?_, ih2.2⟩
    show (insertList hash (insert hash m e).2 l).list = _
    rw [ih2.1, hs.2.1, List.append_assoc]
    simp

theorem insertList_size (hash : K → Nat) {m : LinkedHashmap K V} (l : List (K × V))
    (hWF : WF hash m) (hnd : ((m.list ++ l).map Prod.fst).Nodup)
    (hb : 4 * (m.element_count + l.length) ≤ 3 * m.table_size) :
    (insertList hash m l).table_size = m.table_size := by
  induction l generalizing m with
  | nil => rfl
  | cons e l ih =>
    have hkey : ∀ x ∈ m.list, x.1 ≠ e.1 := by
      intro x hx hxk
      rw [List.map_append, List.map_cons, List.nodup_append] at hnd
      exact hnd.2.2 (List.mem_map_of_mem Prod.fst hx)
        (by rw [hxk]; exact List.mem_cons_self _ _)
    have hf : find_node hash m e.1 = none := (find_node_none_iff hash hWF).mpr hkey
    have hs := insert_absent_spec hash hWF hf
    have hlen : (e :: l).length = l.length + 1 := by simp
    have hlt : ¬ 4 * m.element_count ≥ 3 * m.table_size := by
      rw [hlen] at hb
      omega
    have hsize : (insert hash m e).2.table_size = m.table_size := by
      rw [insert_absent_eq hash hf, insertNew_size, preGrow_size_of_lt hash m hlt]
    have hnd2 : (((insert hash m e).2.list ++ l).map Prod.fst).Nodup := by
      rw [hs.2.1, List.append_assoc]
      simpa using hnd
    have hb2 : 4 * ((insert hash m e).2.element_count + l.length)
        ≤ 3 * (insert hash m e).2.table_size := by
      rw [hs.2.2.1, hsize]
      rw [hlen] at hb
      omega
    have ih2 := ih hs.2.2.2 hnd2 hb2
    show (insertList hash (insert hash m e).2 l).table_size = _
    rw [ih2, hsize]

/-! ### Claim theorems -/

/-- Claim C1: for every sequence of insertions of distinct keys (of any
length, so in particular long enough to cross growth thresholds),
iterating the container yields the keys in exactly first-insertion
order, and `find` succeeds for every inserted key; moreover a rehash
leaves the order list unchanged — no entry lost, duplicated or
reordered — and preserves every `find_node` result. -/
theorem c1_insertion_order_and_rehash_transparency (hash : K → Nat)
    (entries : List (K × V)) (hnd : (entries.map Prod.fst).Nodup)
    (m : LinkedHashmap K V) (hWF : WF hash m) :
    (insertList hash emptyMap entries).list = entries ∧
    ((insertList hash emptyMap entries).list.map Prod.fst = entries.map Prod.fst) ∧
    (∀ e ∈ entries, find_node hash (insertList hash emptyMap entries) e.1 = some e) ∧
    (rehash hash m).list = m.list ∧
    (∀ k, find_node hash (rehash hash m) k = find_node hash m k) := by
  have hnd0 : (((emptyMap : LinkedHashmap K V).list ++ entries).map Prod.fst).Nodup := by
    simpa [emptyMap, emptyOfSize] using hnd
  have hs := insertList_spec hash entries (WF_empty hash) hnd0
  have hlist : (insertList hash emptyMap entries).list = entries := by
    rw [hs.1]
    simp [emptyMap, emptyOfSize]
  refine ⟨hlist, by rw [hlist], ?_, rehash_list hash m, ?_⟩
  · intro e he
    exact (find_node_some_iff hash hs.2).mpr ⟨by rw [hlist]; exact he, rfl⟩
  · intro k
    exact find_node_congr hash (WF_rehash hash hWF) hWF (rehash_list hash m) k

/-- Witness for C1: thirteen distinct keys — enough to cross the growth
threshold at twelve entries of a sixteen-slot table — inserted into a
fresh container; the order list equals the insertion sequence and every
key is still found, and rehashing the empty container is transparent. -/
theorem c1_witness :
    (insertList id (emptyMap : LinkedHashmap Nat Nat)
        ((List.range 13).map (fun i => (i, i + 100)))).list
      = (List.range 13).map (fun i => (i, i + 100)) ∧
    ((insertList id (emptyMap : LinkedHashmap Nat Nat)
        ((List.range 13).map (fun i => (i, i + 100)))).list.map Prod.fst
      = ((List.range 13).map (fun i => (i, i + 100))).map Prod.fst) ∧
    (∀ e ∈ (List.range 13).map (fun i => (i, i + 100)),
      find_node id (insertList id (emptyMap : LinkedHashmap Nat Nat)
        ((List.range 13).map (fun i => (i, i + 100)))) e.1 = some e) ∧
    (rehash id (emptyMap : LinkedHashmap Nat Nat)).list = (emptyMap : LinkedHashmap Nat Nat).list ∧
    (∀ k, find_node id (rehash id (emptyMap : LinkedHashmap Nat Nat)) k
      = find_node id (emptyMap : LinkedHashmap Nat Nat) k) :=
  c1_insertion_order_and_rehash_transparency id
    ((List.range 13).map (fun i => (i, i + 100))) (by decide)
    emptyMap (WF_empty id)

/-- Claim C2: inserting an already-present key `k` (stored value `v`)
returns the existing entry `(k, v)` with a `false` flag and leaves the
container — hence the stored value and the key's position — unchanged;
inserting an absent key returns the new entry with a `true` flag, and
the new entry is last in iteration order. -/
theorem c2_insert_return_contract (hash : K → Nat) (m : LinkedHashmap K V)
    (hWF : WF hash m) (k : K) (v v2 : V) :
    ((k, v) ∈ m.list → insert hash m (k, v2) = (((k, v), false), m)) ∧
    (k ∉ m.list.map Prod.fst →
      (insert hash m (k, v2)).1 = ((k, v2), true) ∧
      (insert hash m (k, v2)).2.list = m.list ++ [(k, v2)]) := by
  constructor
  · intro hmem
    have hf : find_node hash m k = some (k, v) :=
      (find_node_some_iff hash hWF).mpr ⟨hmem, rfl⟩
    exact insert_present hash hf
  · intro habs
    have hf : find_node hash m k = none :=
      (find_node_none_iff hash hWF).mpr (not_mem_keys.mp habs)
    have hs := insert_absent_spec (e := (k, v2)) hash hWF hf
    exact ⟨hs.1, hs.2.1⟩

/-- Witness for C2: with keys 1 (value 10) and 2 (value 20) inserted,
re-inserting key 1 with value 99 returns the existing entry and changes
nothing, while inserting the absent key 3 appends it. -/
theorem c2_witness :
    ((1, 10) ∈ (insertList id (emptyMap : LinkedHashmap Nat Nat) [(1, 10), (2, 20)]).list →
      insert id (insertList id (emptyMap : LinkedHashmap Nat Nat) [(1, 10), (2, 20)]) (1, 99)
        = (((1, 10), false), insertList id (emptyMap : LinkedHashmap Nat Nat) [(1, 10), (2, 20)])) ∧
    (3 ∉ (insertList id (emptyMap : LinkedHashmap Nat Nat) [(1, 10), (2, 20)]).list.map Prod.fst →
      (insert id (insertList id (emptyMap : LinkedHashmap Nat Nat) [(1, 10), (2, 20)]) (3, 30)).1
        = ((3, 30), true) ∧
      (insert id (insertList id (emptyMap : LinkedHashmap Nat Nat) [(1, 10), (2, 20)]) (3, 30)).2.list
        = (insertList id (emptyMap : LinkedHashmap Nat Nat) [(1, 10), (2, 20)]).list ++ [(3, 30)]) :=
  ⟨fun h =>
    (c2_insert_return_contract id
      (insertList id emptyMap [(1, 10), (2, 20)])
      (insertList_spec id [(1, 10), (2, 20)] (WF_empty id) (by decide)).2
      1 10 99).1 h,
   fun h =>
    (c2_insert_return_contract id
      (insertList id emptyMap [(1, 10), (2, 20)])
      (insertList_spec id [(1, 10), (2, 20)] (WF_empty id) (by decide)).2
      3 30 30).2 h⟩

/-- Claim C3: the default container has sixteen slots; rebuilding the
bucket index during a rehash leaves the order list unmodified; an
insertion of a new key that sees `element_count >= table_size * 0.75`
doubles the capacity before creating the entry; and the load-factor
invariant `element_count <= table_size * 0.75` (as `4 * element_count <=
3 * table_size`) still holds after every insertion. -/
theorem c3_load_factor_invariant (hash : K → Nat) (m : LinkedHashmap K V)
    (e : K × V) (hWF : WF hash m) (hS : SizeOk m) (hLF : LF m) :
    (emptyMap : LinkedHashmap K V).table_size = 16 ∧
    (rehash hash m).list = m.list ∧
    (find_node hash m e.1 = none → 4 * m.element_count ≥ 3 * m.table_size →
      (insert hash m e).2.table_size = m.table_size * 2) ∧
    LF (insert hash m e).2 := by
  refine ⟨rfl, rehash_list hash m, ?_, ?_⟩
  · intro hf hc
    rw [insert_absent_eq hash hf, insertNew_size, preGrow_size_of_ge hash m hc]
  · obtain ⟨j, hj⟩ := hS
    have hp : 0 < 2 ^ j := pow_pos (by norm_num) j
    cases hfind : find_node hash m e.1 with
    | some ex =>
      rw [LF, insert_present hash hfind]
      exact hLF
    | none =>
      rw [LF, insert_absent_eq hash hfind, insertNew_count, insertNew_size, preGrow_count]
      by_cases hc : 4 * m.element_count ≥ 3 * m.table_size
      · rw [preGrow_size_of_ge hash m hc]
        rw [LF, hj] at hLF
        rw [hj]
        omega
      · rw [preGrow_size_of_lt hash m hc]
        rw [hj] at hc ⊢
        omega

/-- Witness for C3: the default container (sixteen slots, load factor
satisfied) keeps the invariant when key 0 is inserted. -/
theorem c3_witness :
    (emptyMap : LinkedHashmap Nat Nat).table_size = 16 ∧
    (rehash id (emptyMap : LinkedHashmap Nat Nat)).list = (emptyMap : LinkedHashmap Nat Nat).list ∧
    (find_node id (emptyMap : LinkedHashmap Nat Nat) (0, 5).1 = none →
      4 * (emptyMap : LinkedHashmap Nat Nat).element_count
        ≥ 3 * (emptyMap : LinkedHashmap Nat Nat).table_size →
      (insert id (emptyMap : LinkedHashmap Nat Nat) (0, 5)).2.table_size
        = (emptyMap : LinkedHashmap Nat Nat).table_size * 2) ∧
    LF (insert id (emptyMap : LinkedHashmap Nat Nat) (0, 5)).2 :=
  c3_load_factor_invariant id emptyMap (0, 5) (WF_empty id) ⟨0, rfl⟩ (by unfold LF; decide)

/-- Claim C9: an insert whose key is already present is a complete no-op
on the container: it returns before the load-factor check, so the state
— table, capacity, element count and order list — is unchanged even
when the count is at or above the growth threshold. -/
theorem c9_duplicate_insert_is_noop (hash : K → Nat) (m : LinkedHashmap K V)
    (e ex : K × V) (h : find_node hash m e.1 = some ex) :
    insert hash m e = ((ex, false), m) ∧
    (insert hash m e).2.table_size = m.table_size ∧
    (insert hash m e).2.element_count = m.element_count ∧
    (insert hash m e).2.list = m.list ∧
    (insert hash m e).2.table = m.table := by
  rw [insert_present hash h]
  exact ⟨rfl, rfl, rfl, rfl, rfl⟩

/-- Witness for C9: a container holding keys 0..11 sits exactly at the
growth threshold (twelve elements, sixteen slots); re-inserting key 0
still changes nothing and triggers no rehash. -/
theorem c9_witness :
    4 * (insertList id (emptyMap : LinkedHashmap Nat Nat)
        ((List.range 12).map (fun i => (i, i)))).element_count
      ≥ 3 * (insertList id (emptyMap : LinkedHashmap Nat Nat)
        ((List.range 12).map (fun i => (i, i)))).table_size ∧
    (insert id (insertList id (emptyMap : LinkedHashmap Nat Nat)
        ((List.range 12).map (fun i => (i, i)))) (0, 99)
      = (((0, 0), false),
         insertList id (emptyMap : LinkedHashmap Nat Nat)
           ((List.range 12).map (fun i => (i, i)))) ∧
     (insert id (insertList id (emptyMap : LinkedHashmap Nat Nat)
        ((List.range 12).map (fun i => (i, i)))) (0, 99)).2.table_size
       = (insertList id (emptyMap : LinkedHashmap Nat Nat)
           ((List.range 12).map (fun i => (i, i)))).table_size ∧
     (insert id (insertList id (emptyMap : LinkedHashmap Nat Nat)
        ((List.range 12).map (fun i => (i, i)))) (0, 99)).2.element_count
       = (insertList id (emptyMap : LinkedHashmap Nat Nat)
           ((List.range 12).map (fun i => (i, i)))).element_count ∧
     (insert id (insertList id (emptyMap : LinkedHashmap Nat Nat)
        ((List.range 12).map (fun i => (i, i)))) (0, 99)).2.list
       = (insertList id (emptyMap : LinkedHashmap Nat Nat)
           ((List.range 12).map (fun i => (i, i)))).list ∧
     (insert id (insertList id (emptyMap : LinkedHashmap Nat Nat)
        ((List.range 12).map (fun i => (i, i)))) (0, 99)).2.table
       = (insertList id (emptyMap : LinkedHashmap Nat Nat)
           ((List.range 12).map (fun i => (i, i)))).table) :=
  ⟨by decide,
   c9_duplicate_insert_is_noop id
     (insertList id emptyMap ((List.range 12).map (fun i => (i, i))))
     (0, 99) (0, 0) (by decide)⟩

/-- Claim C7: copy construction (and copy assignment, which replays the
same loop) produces a container with the same order list — hence the
same iteration sequence — and the same `find_node` result for every
key; self-assignment (`this == &other`) is a no-op. -/
theorem c7_copy_roundtrip (hash : K → Nat) (other self : LinkedHashmap K V)
    (hWF : WF hash other) :
    (copy_from hash other).list = other.list ∧
    (∀ k, find_node hash (copy_from hash other) k = find_node hash other k) ∧
    assign hash self other true = self := by
  have h0 : WF hash (emptyOfSize other.table_size : LinkedHashmap K V) :=
    WF_emptyOfSize hash hWF.size_pos
  have hnd : (((emptyOfSize other.table_size : LinkedHashmap K V).list
      ++ other.list).map Prod.fst).Nodup := by
    simpa [emptyOfSize] using hWF.nodupKeys
  have hs := insertList_spec hash other.list h0 hnd
  have hlist : (copy_from hash other).list = other.list := by
    unfold copy_from
    rw [hs.1]
    simp [emptyOfSize]
  have hWFc : WF hash (copy_from hash other) := hs.2
  refine ⟨hlist, ?_, ?_⟩
  · intro k
    exact find_node_congr hash hWFc hWF hlist k
  · unfold assign
    rw [if_pos rfl]

/-- Witness for C7: copying a two-entry container preserves the order
list and all lookups, and self-assignment returns the container
unchanged. -/
theorem c7_witness :
    (copy_from id (insertList id (emptyMap : LinkedHashmap Nat Nat) [(5, 50), (3, 30)])).list
      = (insertList id (emptyMap : LinkedHashmap Nat Nat) [(5, 50), (3, 30)]).list ∧
    (∀ k, find_node id (copy_from id (insertList id (emptyMap : LinkedHashmap Nat Nat)
          [(5, 50), (3, 30)])) k
      = find_node id (insertList id (emptyMap : LinkedHashmap Nat Nat) [(5, 50), (3, 30)]) k) ∧
    assign id (insertList id (emptyMap : LinkedHashmap Nat Nat) [(5, 50), (3, 30)])
        (insertList id (emptyMap : LinkedHashmap Nat Nat) [(5, 50), (3, 30)]) true
      = insertList id (emptyMap : LinkedHashmap Nat Nat) [(5, 50), (3, 30)] :=
  c7_copy_roundtrip id
    (insertList id emptyMap [(5, 50), (3, 30)])
    (insertList id emptyMap [(5, 50), (3, 30)])
    (insertList_spec id [(5, 50), (3, 30)] (WF_empty id) (by decide)).2

/-- Claim C10: a copy starts from a table of exactly the source's
capacity, and because the source satisfies the load-factor invariant,
none of the replayed insertions reaches the growth threshold: the copy
ends with exactly the source's `table_size`. -/
theorem c10_copy_keeps_capacity (hash : K → Nat) (other : LinkedHashmap K V)
    (hWF : WF hash other) (hLF : LF other) :
    (emptyOfSize other.table_size : LinkedHashmap K V).table_size = other.table_size ∧
    (copy_from hash other).table_size = other.table_size := by
  have h0 : WF hash (emptyOfSize other.table_size : LinkedHashmap K V) :=
    WF_emptyOfSize hash hWF.size_pos
  have hnd : (((emptyOfSize other.table_size : LinkedHashmap K V).list
      ++ other.list).map Prod.fst).Nodup := by
    simpa [emptyOfSize] using hWF.nodupKeys
  have hb : 4 * ((emptyOfSize other.table_size : LinkedHashmap K V).element_count
        + other.list.length)
      ≤ 3 * (emptyOfSize other.table_size : LinkedHashmap K V).table_size := by
    rw [LF] at hLF
    have hce := hWF.count_eq
    simp only [emptyOfSize, Nat.zero_add]
    omega
  exact ⟨rfl, insertList_size hash other.list h0 hnd hb⟩

/-- Witness for C10: copying a two-entry container (capacity sixteen,
load factor satisfied) yields capacity sixteen again. -/
theorem c10_witness :
    (emptyOfSize (insertList id (emptyMap : LinkedHashmap Nat Nat)
        [(7, 70), (9, 90)]).table_size : LinkedHashmap Nat Nat).table_size
      = (insertList id (emptyMap : LinkedHashmap Nat Nat) [(7, 70), (9, 90)]).table_size ∧
    (copy_from id (insertList id (emptyMap : LinkedHashmap Nat Nat)
        [(7, 70), (9, 90)])).table_size
      = (insertList id (emptyMap : LinkedHashmap Nat Nat) [(7, 70), (9, 90)]).table_size :=
  c10_copy_keeps_capacity id
    (insertList id emptyMap [(7, 70), (9, 90)])
    (insertList_spec id [(7, 70), (9, 90)] (WF_empty id) (by decide)).2
    (by unfold LF; decide)

/-- Claim C8: the lookups agree — `at` throws `index_out_of_bound`
exactly when the key is absent (and returns its value otherwise),
`count` is 1 for a present key and 0 otherwise (never more), and `find`
returns past-the-end exactly when the key is absent, otherwise an
iterator whose entry's key equals the query. -/
theorem c8_lookup_consistency (hash : K → Nat) (m : LinkedHashmap K V)
    (hWF : WF hash m) (k : K) :
    (atGet hash m k = Except.error HMError.index_out_of_bound ↔ k ∉ m.list.map Prod.fst) ∧
    (∀ v, (k, v) ∈ m.list → atGet hash m k = Except.ok v) ∧
    (countKey hash m k = if k ∈ m.list.map Prod.fst then 1 else 0) ∧
    (findIt hash m k = none ↔ k ∉ m.list.map Prod.fst) ∧
    (∀ e, findIt hash m k = some e → e.1 = k ∧ e ∈ m.list) := by
  have habs : find_node hash m k = none ↔ k ∉ m.list.map Prod.fst := by
    rw [find_node_none_iff hash hWF, not_mem_keys]
  refine ⟨?_, ?_, ?_, ?_, ?_⟩
  · unfold atGet
    cases hf : find_node hash m k with
    | some e =>
      have he := (find_node_some_iff hash hWF).mp hf
      simp only [reduceCtorEq, false_iff]
      intro hk
      exact hk (he.2 ▸ List.mem_map_of_mem Prod.fst he.1)
    | none =>
      simp only [true_iff]
      exact habs.mp hf
  · intro v hmem
    have hf : find_node hash m k = some (k, v) :=
      (find_node_some_iff hash hWF).mpr ⟨hmem, rfl⟩
    unfold atGet
    rw [hf]
  · unfold countKey
    cases hf : find_node hash m k with
    | some e =>
      have he := (find_node_some_iff hash hWF).mp hf
      rw [if_pos (he.2 ▸ List.mem_map_of_mem Prod.fst he.1)]
    | none =>
      rw [if_neg (habs.mp hf)]
  · unfold findIt
    cases hf : find_node hash m k with
    | some e =>
      have he := (find_node_some_iff hash hWF).mp hf
      simp only [reduceCtorEq, false_iff]
      intro hk
      exact hk (he.2 ▸ List.mem_map_of_mem Prod.fst he.1)
    | none =>
      simp only [true_iff]
      exact habs.mp hf
  · intro e hfind
    unfold findIt at hfind
    cases hf : find_node hash m k with
    | some x =>
      rw [hf] at hfind
      have he := (find_node_some_iff hash hWF).mp hf
      cases hfind
      exact ⟨he.2, he.1⟩
    | none =>
      rw [hf] at hfind
      cases hfind

/-- Witness for C8: on a container holding keys 2 and 4, the three
lookups agree for the present key 2 and the absent key 3. -/
theorem c8_witness :
    ((atGet id (insertList id (emptyMap : LinkedHashmap Nat Nat) [(2, 20), (4, 40)]) 3
        = Except.error HMError.index_out_of_bound
      ↔ 3 ∉ (insertList id (emptyMap : LinkedHashmap Nat Nat)
          [(2, 20), (4, 40)]).list.map Prod.fst) ∧
    (∀ v, (3, v) ∈ (insertList id (emptyMap : LinkedHashmap Nat Nat) [(2, 20), (4, 40)]).list →
      atGet id (insertList id (emptyMap : LinkedHashmap Nat Nat) [(2, 20), (4, 40)]) 3
        = Except.ok v) ∧
    (countKey id (insertList id (emptyMap : LinkedHashmap Nat Nat) [(2, 20), (4, 40)]) 3
      = if 3 ∈ (insertList id (emptyMap : LinkedHashmap Nat Nat)
          [(2, 20), (4, 40)]).list.map Prod.fst then 1 else 0) ∧
    (findIt id (insertList id (emptyMap : LinkedHashmap Nat Nat) [(2, 20), (4, 40)]) 3 = none
      ↔ 3 ∉ (insertList id (emptyMap : LinkedHashmap Nat Nat)
          [(2, 20), (4, 40)]).list.map Prod.fst) ∧
    (∀ e, findIt id (insertList id (emptyMap : LinkedHashmap Nat Nat) [(2, 20), (4, 40)]) 3
        = some e → e.1 = 3 ∧ e ∈ (insertList id (emptyMap : LinkedHashmap Nat Nat)
          [(2, 20), (4, 40)]).list)) ∧
    (∀ v, (2, v) ∈ (insertList id (emptyMap : LinkedHashmap Nat Nat) [(2, 20), (4, 40)]).list →
      atGet id (insertList id (emptyMap : LinkedHashmap Nat Nat) [(2, 20), (4, 40)]) 2
        = Except.ok v) :=
  ⟨c8_lookup_consistency id
     (insertList id emptyMap [(2, 20), (4, 40)])
     (insertList_spec id [(2, 20), (4, 40)] (WF_empty id) (by decide)).2 3,
   (c8_lookup_consistency id
     (insertList id emptyMap [(2, 20), (4, 40)])
     (insertList_spec id [(2, 20), (4, 40)] (WF_empty id) (by decide)).2 2).2.1⟩

/-- Claim C6: on the mutable container, `[]` with an absent key inserts
a default-constructed value via `insert` (appended last) and returns it,
and with a present key returns the stored value without modifying the
container; on a read-only container, `[]` with an absent key throws
`index_out_of_bound` and never inserts (it returns no state at all). -/
theorem c6_index_access_asymmetry [Inhabited V] (hash : K → Nat)
    (m : LinkedHashmap K V) (hWF : WF hash m) (k : K) :
    (∀ v, (k, v) ∈ m.list → indexGet hash m k = (v, m)) ∧
    (k ∉ m.list.map Prod.fst →
      (indexGet hash m k).1 = (default : V) ∧
      (indexGet hash m k).2.list = m.list ++ [(k, (default : V))]) ∧
    (k ∉ m.list.map Prod.fst →
      indexGetConst hash m k = Except.error HMError.index_out_of_bound) ∧
    (∀ v, (k, v) ∈ m.list → indexGetConst hash m k = Except.ok v) := by
  refine ⟨?_, ?_, ?_, ?_⟩
  · intro v hmem
    have hf : find_node hash m k = some (k, v) :=
      (find_node_some_iff hash hWF).mpr ⟨hmem, rfl⟩
    unfold indexGet
    rw [hf]
  · intro habs
    have hf : find_node hash m k = none :=
      (find_node_none_iff hash hWF).mpr (not_mem_keys.mp habs)
    have hs := insert_absent_spec (e := (k, (default : V))) hash hWF hf
    unfold indexGet
    rw [hf]
    refine ⟨?_, hs.2.1⟩
    show (insert hash m (k, (default : V))).1.1.2 = (default : V)
    rw [hs.1]
  · intro habs
    have hf : find_node hash m k = none :=
      (find_node_none_iff hash hWF).mpr (not_mem_keys.mp habs)
    unfold indexGetConst
    rw [hf]
  · intro v hmem
    have hf : find_node hash m k = some (k, v) :=
      (find_node_some_iff hash hWF).mpr ⟨hmem, rfl⟩
    unfold indexGetConst
    rw [hf]

/-- Witness for C6: on a container holding key 1 with value 10, mutable
index access of key 1 returns 10 without change, of absent key 8 inserts
default 0 last; read-only access of key 8 throws. -/
theorem c6_witness :
    (∀ v, (1, v) ∈ (insertList id (emptyMap : LinkedHashmap Nat Nat) [(1, 10)]).list →
      indexGet id (insertList id (emptyMap : LinkedHashmap Nat Nat) [(1, 10)]) 1
        = (v, insertList id (emptyMap : LinkedHashmap Nat Nat) [(1, 10)])) ∧
    (8 ∉ (insertList id (emptyMap : LinkedHashmap Nat Nat) [(1, 10)]).list.map Prod.fst →
      (indexGet id (insertList id (emptyMap : LinkedHashmap Nat Nat) [(1, 10)]) 8).1
        = (default : Nat) ∧
      (indexGet id (insertList id (emptyMap : LinkedHashmap Nat Nat) [(1, 10)]) 8).2.list
        = (insertList id (emptyMap : LinkedHashmap Nat Nat) [(1, 10)]).list
          ++ [(8, (default : Nat))]) ∧
    (8 ∉ (insertList id (emptyMap : LinkedHashmap Nat Nat) [(1, 10)]).list.map Prod.fst →
      indexGetConst id (insertList id (emptyMap : LinkedHashmap Nat Nat) [(1, 10)]) 8
        = Except.error HMError.index_out_of_bound) ∧
    (∀ v, (1, v) ∈ (insertList id (emptyMap : LinkedHashmap Nat Nat) [(1, 10)]).list →
      indexGetConst id (insertList id (emptyMap : LinkedHashmap Nat Nat) [(1, 10)]) 1
        = Except.ok v) := by
  have h1 := c6_index_access_asymmetry id
    (insertList id emptyMap [(1, 10)])
    (insertList_spec id [(1, 10)] (WF_empty id) (by decide)).2 1
  have h8 := c6_index_access_asymmetry id
    (insertList id emptyMap [(1, 10)])
    (insertList_spec id [(1, 10)] (WF_empty id) (by decide)).2 8
  exact ⟨h1.1, h8.2.1, h8.2.2.1, h1.2.2.2⟩

/-- Claim C5: for both iterator classes, advancing throws
`invalid_iterator` exactly when the cursor is null or at the tail
sentinel (otherwise it moves to the next node), and retreating throws
exactly when the cursor is null or its predecessor is the head sentinel
— the first element, or `end()` of an empty container (otherwise it
moves to the previous node); in particular decrementing `end()` of an
empty container throws. -/
theorem c5_iterator_move_errors (n : Nat) (p : Option Nat) :
    (advanceIter n p = Except.error HMError.invalid_iterator
      ↔ (p = none ∨ p = some (n + 1))) ∧
    (∀ i, p = some i → i ≠ n + 1 → advanceIter n p = Except.ok (some (i + 1))) ∧
    (retreatIter p = Except.error HMError.invalid_iterator
      ↔ (p = none ∨ p = some 1)) ∧
    (∀ i, p = some i → i ≠ 1 →
      retreatIter p = Except.ok (if i = 0 then none else some (i - 1))) ∧
    retreatIter (some (0 + 1)) = Except.error HMError.invalid_iterator := by
  refine ⟨?_, ?_, ?_, ?_, rfl⟩
  · cases p with
    | none => simp [advanceIter]
    | some i =>
      unfold advanceIter
      by_cases hi : i = n + 1
      · simp [hi]
      · simp [hi]
  · intro i hp hi
    subst hp
    simp [advanceIter, hi]
  · cases p with
    | none => simp [retreatIter]
    | some i =>
      unfold retreatIter
      by_cases hi : i = 1
      · simp [hi]
      · simp [hi]
  · intro i hp hi
    subst hp
    simp [retreatIter, hi]

theorem remove_from_table_table (hash : K → Nat) (m : LinkedHashmap K V) (k : K) (i : Nat) :
    (remove_from_table hash m k).table i
      = if i = get_bucket_index hash m k
          then (m.table i).eraseP (fun e => decide (e.1 = k)) else m.table i := rfl

theorem remove_from_table_list (hash : K → Nat) (m : LinkedHashmap K V) (k : K) :
    (remove_from_table hash m k).list = m.list := rfl

theorem remove_from_table_size (hash : K → Nat) (m : LinkedHashmap K V) (k : K) :
    (remove_from_table hash m k).table_size = m.table_size := rfl

theorem remove_from_table_count (hash : K → Nat) (m : LinkedHashmap K V) (k : K) :
    (remove_from_table hash m k).element_count = m.element_count := rfl

theorem eraseP_key_not_found {l : List (K × V)} (hnd : (l.map Prod.fst).Nodup) (k : K) :
    (l.eraseP (fun x => decide (x.1 = k))).find? (fun x => decide (x.1 = k)) = none := by
  by_cases hmem : ∃ a ∈ l, a.1 = k
  · obtain ⟨a, ha, hak⟩ := hmem
    obtain ⟨b, l1, l2, hl1, hb, hleq, herase⟩ :=
      List.exists_of_eraseP (p := fun x => decide (x.1 = k)) ha (decide_eq_true hak)
    rw [herase, List.find?_eq_none]
    intro x hx
    simp only [decide_eq_true_eq]
    intro hxk
    rcases List.mem_append.mp hx with hx1 | hx2
    · have := hl1 x hx1
      simp [hxk] at this
    · rw [hleq, List.map_append, List.map_cons] at hnd
      have hbn : b.1 ∉ l2.map Prod.fst :=
        (List.nodup_cons.mp (List.Nodup.of_append_right hnd)).1
      have hbk : b.1 = k := by simpa using hb
      have hx2k : k ∈ l2.map Prod.fst := hxk ▸ List.mem_map_of_mem Prod.fst hx2
      exact hbn (hbk ▸ hx2k)
  · rw [List.find?_eq_none]
    intro x hx
    simp only [decide_eq_true_eq]
    intro hxk
    exact hmem ⟨x, (List.eraseP_sublist _).subset hx, hxk⟩

/-- Claim C4: `erase(pos)` throws `invalid_iterator` exactly when `pos`
is the past-the-end iterator, the before-first sentinel, a null cursor,
or belongs to a different container — and in every such case the
container is completely unchanged; for a valid position it unlinks the
order-list node, removes the key's chain cell (so the key is no longer
found), and decrements `element_count` by one.  The hypothesis restricts
`pos` to genuine cursor positions of the container it points into. -/
theorem c4_erase_contract (hash : K → Nat) (m : LinkedHashmap K V) (p : IterArg)
    (hWF : WF hash m)
    (hvalid : p.sameMap = true → ∀ i, p.pos = some i → i ≤ m.list.length + 1) :
    ((eraseIt hash m p).1 = some HMError.invalid_iterator ↔
      (p.sameMap = false ∨ p.pos = some (m.list.length + 1) ∨ p.pos = some 0 ∨ p.pos = none)) ∧
    ((eraseIt hash m p).1.isSome → (eraseIt hash m p).2 = m) ∧
    (∀ i, p.sameMap = true → p.pos = some i → i ≠ 0 → i ≠ m.list.length + 1 →
      ∃ e, m.list[i - 1]? = some e ∧
        (eraseIt hash m p).1 = none ∧
        (eraseIt hash m p).2.list = m.list.eraseIdx (i - 1) ∧
        (eraseIt hash m p).2.element_count = m.element_count - 1 ∧
        find_node hash (eraseIt hash m p).2 e.1 = none) := by
  by_cases hC : p.sameMap = false ∨ p.pos = some (m.list.length + 1)
      ∨ p.pos = some 0 ∨ p.pos = none
  · have h1 : eraseIt hash m p = (some HMError.invalid_iterator, m) := by
      unfold eraseIt
      rw [if_pos hC]
    rw [h1]
    refine ⟨by simpa using hC, fun _ => rfl, ?_⟩
    intro i hsm hp hi0 hin
    exfalso
    rcases hC with h | h | h | h
    · rw [hsm] at h
      exact Bool.noConfusion h
    · rw [hp] at h
      exact hin (Option.some.inj h)
    · rw [hp] at h
      exact hi0 (Option.some.inj h)
    · rw [hp] at h
      exact Option.noConfusion h
  · have hnC := hC
    push_neg at hC
    obtain ⟨hsm0, hnt, hnh, hnn⟩ := hC
    cases hp : p.pos with
    | none => exact absurd hp hnn
    | some i =>
      have hsm : p.sameMap = true := by
        cases hb : p.sameMap
        · exact absurd hb hsm0
        · rfl
      have hi0 : i ≠ 0 := fun h => hnh (by rw [hp, h])
      have hin : i ≠ m.list.length + 1 := fun h => hnt (by rw [hp, h])
      have hile := hvalid hsm i hp
      have hlt : i - 1 < m.list.length := by omega
      have hget : m.list[i - 1]? = some (m.list[i - 1]) :=
        List.getElem?_eq_getElem hlt
      have h1 : eraseIt hash m p
          = (none,
             { remove_from_table hash m (m.list[i - 1]).1 with
               list := (remove_from_table hash m (m.list[i - 1]).1).list.eraseIdx (i - 1),
               element_count :=
                 (remove_from_table hash m (m.list[i - 1]).1).element_count - 1 }) := by
        unfold eraseIt
        rw [if_neg hnC, hp]
        simp only [Option.getD_some]
        rw [hget]
      refine ⟨?_, ?_, ?_⟩
      · rw [h1]
        simp only [reduceCtorEq, false_iff]
        push_neg
        refine ⟨hsm0, ?_, ?_, ?_⟩
        · exact fun h => hin (Option.some.inj h)
        · exact fun h => hi0 (Option.some.inj h)
        · simp
      · rw [h1]
        intro h
        simp at h
      · intro i2 _ hp2 _ _
        have hi2 : i = i2 := Option.some.inj hp2
        subst hi2
        refine ⟨m.list[i - 1], hget, ?_⟩
        rw [h1]
        refine ⟨rfl, by rw [remove_from_table_list], by rw [remove_from_table_count], ?_⟩
        show ((remove_from_table hash m (m.list[i - 1]).1).table
            (hash (m.list[i - 1]).1 % m.table_size)).find?
            (fun x => decide (x.1 = (m.list[i - 1]).1)) = none
        rw [remove_from_table_table]
        rw [if_pos (show hash (m.list[i - 1]).1 % m.table_size
          = get_bucket_index hash m (m.list[i - 1]).1 from rfl)]
        exact eraseP_key_not_found (hWF.chainNodup _) _

/-- Witness for C4: on a container holding keys 1 and 2, erasing through
the first element's iterator succeeds and removes key 1, while the
theorem's error characterisation holds for that same valid position
(no error is raised). -/
theorem c4_witness :
    ((eraseIt id (insertList id (emptyMap : LinkedHashmap Nat Nat) [(1, 10), (2, 20)])
        (IterArg.mk (some 1) true)).1 = some HMError.invalid_iterator ↔
      ((IterArg.mk (some 1) true).sameMap = false ∨
        (IterArg.mk (some 1) true).pos
          = some ((insertList id (emptyMap : LinkedHashmap Nat Nat)
              [(1, 10), (2, 20)]).list.length + 1) ∨
        (IterArg.mk (some 1) true).pos = some 0 ∨
        (IterArg.mk (some 1) true).pos = none)) ∧
    ((eraseIt id (insertList id (emptyMap : LinkedHashmap Nat Nat) [(1, 10), (2, 20)])
        (IterArg.mk (some 1) true)).1.isSome →
      (eraseIt id (insertList id (emptyMap : LinkedHashmap Nat Nat) [(1, 10), (2, 20)])
        (IterArg.mk (some 1) true)).2
        = insertList id (emptyMap : LinkedHashmap Nat Nat) [(1, 10), (2, 20)]) ∧
    (∀ i, (IterArg.mk (some 1) true).sameMap = true →
      (IterArg.mk (some 1) true).pos = some i → i ≠ 0 →
      i ≠ (insertList id (emptyMap : LinkedHashmap Nat Nat) [(1, 10), (2, 20)]).list.length + 1 →
      ∃ e, (insertList id (emptyMap : LinkedHashmap Nat Nat) [(1, 10), (2, 20)]).list[i - 1]?
          = some e ∧
        (eraseIt id (insertList id (emptyMap : LinkedHashmap Nat Nat) [(1, 10), (2, 20)])
          (IterArg.mk (some 1) true)).1 = none ∧
        (eraseIt id (insertList id (emptyMap : LinkedHashmap Nat Nat) [(1, 10), (2, 20)])
          (IterArg.mk (some 1) true)).2.list
          = (insertList id (emptyMap : LinkedHashmap Nat Nat)
              [(1, 10), (2, 20)]).list.eraseIdx (i - 1) ∧
        (eraseIt id (insertList id (emptyMap : LinkedHashmap Nat Nat) [(1, 10), (2, 20)])
          (IterArg.mk (some 1) true)).2.element_count
          = (insertList id (emptyMap : LinkedHashmap Nat Nat)
              [(1, 10), (2, 20)]).element_count - 1 ∧
        find_node id (eraseIt id (insertList id (emptyMap : LinkedHashmap Nat Nat)
            [(1, 10), (2, 20)]) (IterArg.mk (some 1) true)).2 e.1 = none) :=
  c4_erase_contract id
    (insertList id emptyMap [(1, 10), (2, 20)])
    (IterArg.mk (some 1) true)
    (insertList_spec id [(1, 10), (2, 20)] (WF_empty id) (by decide)).2
    (fun _ i hi => by
      cases hi
      exact Nat.succ_le_succ (Nat.zero_le _))

end LHM
